import Mathlib

/-!
# Verification of the SlickQueue core against its specification

Shallow embedding of `src/include/slick/queue.h` (the canonical SlickQueue
implementation).  Machine integers are modelled as `Nat` with explicit
`% 2^w` where overflow matters; `x & mask_` (with `mask_ = size_ - 1` and
`size_` a power of two) is modelled as `x % size_`; bit shifts in the
reserved-info codec are modelled arithmetically (`<< 16` is `* 2^16`,
`>> 16` is `/ 2^16`, `& 0xFFFF` is `% 2^16`).  All operations are given the
sequential (interference-free) semantics: every atomic load sees the
current state and every CAS whose expected value matches succeeds.
-/

namespace SlickQueue

/-- `2^64`, the modulus of `uint64_t` arithmetic. -/
def U64 : Nat := 2 ^ 64

/-- `2^16`, the modulus of the 16-bit size field of the reservation word. -/
def U16 : Nat := 2 ^ 16

/-- `kInvalidIndex = std::numeric_limits<uint64_t>::max()`, the sentinel. -/
def kInvalidIndex : Nat := 2 ^ 64 - 1

/-- The per-slot control record: `struct slot { atomic u64 data_index; u32 size; }`.
`data_index` defaults to the sentinel, `size` defaults to 1. -/
structure Slot where
  data_index : Nat
  size : Nat
deriving Repr, DecidableEq

def defaultSlot : Slot := { data_index := kInvalidIndex, size := 1 }

/-- The queue state (local-memory mode): capacity `size_`, the data array,
the control array, the packed reservation word `reserved_`, the
last-published watermark, its validity flag, and the loss counter. -/
structure Queue where
  size_ : Nat
  data_ : List Nat
  control_ : List Slot
  reserved_ : Nat
  last_published_ : Nat
  last_published_valid_ : Bool
  loss_count_ : Nat
deriving Repr, DecidableEq

/-- `make_reserved_info(index, size) = ((index & 0xFFFFFFFFFFFF) << 16) | (size & 0xFFFF)`.
Since the two fields do not overlap, the bitwise-or is a sum. -/
def make_reserved_info (index size : Nat) : Nat :=
  (index % 2 ^ 48) * U16 + size % U16

/-- `get_index(reserved) = reserved >> 16`. -/
def get_index (reserved : Nat) : Nat := reserved / U16

/-- `get_size(reserved) = reserved & 0xFFFF`. -/
def get_size (reserved : Nat) : Nat := reserved % U16

/-- `is_power_of_two(value) = value != 0 && ((value & (value - 1)) == 0)`. -/
def is_power_of_two (v : Nat) : Bool := v != 0 && (v &&& (v - 1)) == 0

/-- Error kinds thrown by the queue: `std::invalid_argument` and
`std::runtime_error`. -/
inductive ErrKind where
  | invalidArgument : ErrKind
  | runtimeError : ErrKind
deriving Repr, DecidableEq

/-- Read `control_[i]` (all in-range accesses of the read/reserve paths use
`i < size_ = control_.length`, where the default is never returned). -/
def getControl (q : Queue) (i : Nat) : Slot := q.control_.getD i defaultSlot

/-- Write `control_[i]`. -/
def setControl (q : Queue) (i : Nat) (s : Slot) : Queue :=
  { q with control_ := q.control_.set i s }

/-- The local-memory constructor `SlickQueue(uint32_t size, nullptr)`:
rejects non-powers-of-two with `std::invalid_argument`; otherwise starts
with `reserved_ = 0`, watermark at the sentinel and valid, and `size`
default-constructed control slots. -/
def construct (size : Nat) : Except ErrKind Queue :=
  if !is_power_of_two size then .error .invalidArgument
  else .ok { size_ := size
             data_ := List.replicate size 0
             control_ := List.replicate size defaultSlot
             reserved_ := 0
             last_published_ := kInvalidIndex
             last_published_valid_ := true
             loss_count_ := 0 }

/-- `SlickQueue::reserve(uint32_t n)`, sequential semantics (the CAS of the
multi-slot loop succeeds on the first iteration; the best-effort CAS of the
single-slot path compares against the current word). -/
def reserve (q : Queue) (n : Nat) : Except ErrKind (Nat × Queue) :=
  if n = 0 then .error .invalidArgument
  else if q.size_ < n then .error .runtimeError
  else if n = 1 then
    -- single-slot fast path: fetch_add(1 << 16)
    let prev := q.reserved_
    let index := get_index prev
    let prev_size := get_size prev
    let q1 := { q with reserved_ := (prev + U16) % U64 }
    let q2 :=
      if prev_size ≠ 1 then
        -- compare_exchange_strong(make_reserved_info(index+1, prev_size),
        --                         make_reserved_info(index+1, 1))
        if q1.reserved_ = make_reserved_info (index + 1) prev_size then
          { q1 with reserved_ := make_reserved_info (index + 1) 1 }
        else q1
      else q1
    .ok (index, q2)
  else
    -- multi-slot path
    let reserved := q.reserved_
    let index0 := get_index reserved
    let idx := index0 % q.size_
    let wrapped := q.size_ < idx + n
    let index := if wrapped then index0 + (q.size_ - idx) else index0
    let next := make_reserved_info (index + n) n
    let q1 := { q with reserved_ := next }
    let q2 :=
      if wrapped then
        -- control_[get_index(reserved) & mask_] := { size := n, data_index := index }
        setControl q1 idx { data_index := index, size := n }
      else q1
    .ok (index, q2)

/-- Writing `count` cells starting at physical position `p` (a `memcpy`
into the pointer returned by `operator[]`). -/
def writeCells (d : List Nat) (p : Nat) (vs : List Nat) : List Nat :=
  match vs with
  | [] => d
  | v :: rest => writeCells (d.set p v) (p + 1) rest

/-- Write the values `vs` through `operator[](index) = &data_[index & mask_]`. -/
def writeData (q : Queue) (index : Nat) (vs : List Nat) : Queue :=
  { q with data_ := writeCells q.data_ (index % q.size_) vs }

/-- `SlickQueue::publish(uint64_t index, uint32_t n)`: set
`control_[index & mask_] = { size := n, data_index := index }`, then, when
the watermark is valid, raise it to `index` if it is the sentinel or below
`index` (the CAS loop, sequentially, performs exactly that). -/
def publish (q : Queue) (index n : Nat) : Queue :=
  let q1 := setControl q (index % q.size_) { data_index := index, size := n }
  if q1.last_published_valid_ then
    if q1.last_published_ = kInvalidIndex ∨ q1.last_published_ < index then
      { q1 with last_published_ := index }
    else q1
  else q1

/-- Result of one iteration of a read loop: either the call returns
(`done result cursor queue`) or the loop continues with a new cursor
(`again cursor queue`). -/
inductive StepRes where
  | done : Option (Nat × Nat) → Nat → Queue → StepRes
  | again : Nat → Queue → StepRes
deriving Repr, DecidableEq

/-- One iteration of the `while (true)` loop of
`SlickQueue::read(uint64_t&)` (plain cursor).  Note that the
reset-detection branch only assigns `read_index = 0`; the iteration then
falls through to the loss accounting and the remaining checks (there is no
`continue`).  A successful read returns the physical data position
`read_index & mask_` and the slot's size. -/
def readPlainStep (q : Queue) (c : Nat) : StepRes :=
  let idx := c % q.size_
  let slot := getControl q idx
  let index := slot.data_index
  let c1 := if index ≠ kInvalidIndex ∧ get_index q.reserved_ < index then 0 else c
  let q1 :=
    if index ≠ kInvalidIndex ∧ c1 < index ∧ index % q.size_ = idx then
      { q with loss_count_ := (q.loss_count_ + (index - c1)) % U64 }
    else q
  if index = kInvalidIndex ∨ index < c1 then .done none c1 q1
  else if c1 < index ∧ index % q.size_ ≠ idx then .again index q1
  else .done (some (c1 % q.size_, slot.size)) ((index + slot.size) % U64) q1

/-- `SlickQueue::read(uint64_t&)` as iteration of `readPlainStep`, with
fuel (`none` = fuel exhausted).  On `some (r, c', q')`: `r` is the returned
pair (`none` = `(nullptr, 0)`), `c'` the final cursor, `q'` the queue. -/
def readPlain (fuel : Nat) (q : Queue) (c : Nat) :
    Option (Option (Nat × Nat) × Nat × Queue) :=
  match fuel with
  | 0 => none
  | fuel + 1 =>
    match readPlainStep q c with
    | .done r c' q' => some (r, c', q')
    | .again c' q' => readPlain fuel q' c'

/-- One iteration of the `while (true)` loop of
`SlickQueue::read(std::atomic<uint64_t>&)` (shared cursor), sequential
semantics (every CAS succeeds).  The reset-detection branch stores 0 and
`continue`s; the overrun is recorded before the wrap check and added to
the loss counter only on a successful claim. -/
def readAtomicStep (q : Queue) (c : Nat) : StepRes :=
  let idx := c % q.size_
  let slot := getControl q idx
  let index := slot.data_index
  if index ≠ kInvalidIndex ∧ get_index q.reserved_ < index then .again 0 q
  else if index = kInvalidIndex ∨ index < c then .done none c q
  else
    let overrun := if c < index ∧ index % q.size_ = idx then index - c else 0
    if c < index ∧ index % q.size_ ≠ idx then .again index q
    else
      let q1 :=
        if overrun ≠ 0 then
          { q with loss_count_ := (q.loss_count_ + overrun) % U64 }
        else q
      .done (some (c % q.size_, slot.size)) ((index + slot.size) % U64) q1

/-- `SlickQueue::read(std::atomic<uint64_t>&)` as iteration of
`readAtomicStep`, with fuel. -/
def readAtomic (fuel : Nat) (q : Queue) (c : Nat) :
    Option (Option (Nat × Nat) × Nat × Queue) :=
  match fuel with
  | 0 => none
  | fuel + 1 =>
    match readAtomicStep q c with
    | .done r c' q' => some (r, c', q')
    | .again c' q' => readAtomic fuel q' c'

/-- `SlickQueue::read_last()`.  The outer `Option` models definedness:
`none` means the call performs an out-of-bounds access (the source indexes
`control_[last_index]` without masking, so any watermark `≥ size_` reads
past the control array).  The inner `Option` is the returned pair
(`none` = `(nullptr, 0)`). -/
def read_last (q : Queue) : Option (Option (Nat × Nat)) :=
  if q.last_published_valid_ then
    let last_index := q.last_published_
    if last_index = kInvalidIndex then some none
    else
      match q.control_.get? last_index with
      | none => none
      | some slot => some (some (last_index % q.size_, slot.size))
  else
    let index := get_index q.reserved_
    if index = 0 then some none
    else
      let sz := get_size q.reserved_
      some (some ((index - sz) % q.size_, sz))

/-- Extract the `ok` value of an `Except`, with a default. -/
def fromOk {α : Type} (e : Except ErrKind α) (d : α) : α :=
  match e with
  | .ok a => a
  | .error _ => d

/-- Whether an `Except` is `ok` (the call did not throw). -/
def isOk {α : Type} (e : Except ErrKind α) : Bool :=
  match e with
  | .ok _ => true
  | .error _ => false

instance {ε α : Type} [DecidableEq ε] [DecidableEq α] : DecidableEq (Except ε α) := fun x y =>
  match x, y with
  | .ok a, .ok b =>
      if h : a = b then .isTrue (by rw [h])
      else .isFalse (fun hh => h (by injection hh))
  | .error e, .error f =>
      if h : e = f then .isTrue (by rw [h])
      else .isFalse (fun hh => h (by injection hh))
  | .ok _, .error _ => .isFalse (fun hh => Except.noConfusion hh)
  | .error _, .ok _ => .isFalse (fun hh => Except.noConfusion hh)

/-- Producer-side operations, for quantifying over operation sequences. -/
inductive Op where
  | res : Nat → Op
  | pub : Nat → Nat → Op
deriving Repr, DecidableEq

/-- Apply one producer operation to the queue state (a throwing `reserve`
leaves the state unchanged). -/
def applyOp (q : Queue) : Op → Queue
  | .res n => fromOk ((reserve q n).map Prod.snd) q
  | .pub i n => publish q i n

/-- Apply a sequence of producer operations. -/
def applyOps (q : Queue) (ops : List Op) : Queue := ops.foldl applyOp q

/-- A throwaway default queue for `fromOk` extractions. -/
def dummyQ : Queue :=
  { size_ := 1, data_ := [0], control_ := [defaultSlot], reserved_ := 0
    last_published_ := kInvalidIndex, last_published_valid_ := true
    loss_count_ := 0 }

/-- The queue a `StepRes` carries (used to observe the loss counter after
one loop iteration). -/
def stepQueue : StepRes → Queue
  | .done _ _ q => q
  | .again _ q => q

/- Concrete states for claim C1: `N = 2`, three single-slot publishes, so
the watermark ends at 2 (≥ N). -/

def c1q0 : Queue := fromOk (construct 2) dummyQ
def c1q1 : Queue := publish (fromOk (reserve c1q0 1) (0, dummyQ)).2 0 1
def c1q2 : Queue := publish (fromOk (reserve c1q1 1) (0, dummyQ)).2 1 1
def c1q3 : Queue := publish (fromOk (reserve c1q2 1) (0, dummyQ)).2 2 1

/- Concrete states for claim C2: `N = 8`, two reserve(3)/publish pairs, so
the next reserve(3) wraps. -/

def c2q0 : Queue := fromOk (construct 8) dummyQ
def c2q1 : Queue := publish (fromOk (reserve c2q0 3) (0, dummyQ)).2 0 3
def c2q2 : Queue := publish (fromOk (reserve c2q1 3) (0, dummyQ)).2 3 3
def c2q3 : Queue := (fromOk (reserve c2q2 3) (0, dummyQ)).2

/- Concrete states for claim C3: the `N = 8` char-queue wrap scenario
("123", "456", "789" as ASCII codes). -/

def c3q0 : Queue := fromOk (construct 8) dummyQ
def c3r1 : Nat × Queue := fromOk (reserve c3q0 3) (0, dummyQ)
def c3q1 : Queue := publish (writeData c3r1.2 c3r1.1 [49, 50, 51]) c3r1.1 3
def c3r2 : Nat × Queue := fromOk (reserve c3q1 3) (0, dummyQ)
def c3q2 : Queue := publish (writeData c3r2.2 c3r2.1 [52, 53, 54]) c3r2.1 3
def c3r3 : Nat × Queue := fromOk (reserve c3q2 3) (0, dummyQ)
def c3q3 : Queue := writeData c3r3.2 c3r3.1 [55, 56, 57]
def c3q4 : Queue := publish c3q3 c3r3.1 3

/- Concrete states for claim C4. -/

def c4q : Queue := fromOk (construct 4) dummyQ
def c4q1 : Queue := fromOk (construct 1) dummyQ

/- Concrete state for claim C5: slot 1 carries published index 5 while the
reservation word's index is only 2 (a reset happened under the reader), so
the reset-detection branch fires at cursor 1. -/

def c5q : Queue :=
  { size_ := 2, data_ := [100, 200]
    control_ := [defaultSlot, { data_index := 5, size := 1 }]
    reserved_ := make_reserved_info 2 1
    last_published_ := kInvalidIndex, last_published_valid_ := true
    loss_count_ := 0 }

def c5qA : Queue := { c5q with loss_count_ := 5 }

/- Concrete state for claim C6 (same shape as the C5 state). -/

def c6q : Queue :=
  { size_ := 2, data_ := [100, 200]
    control_ := [defaultSlot, { data_index := 5, size := 1 }]
    reserved_ := make_reserved_info 2 1
    last_published_ := kInvalidIndex, last_published_valid_ := true
    loss_count_ := 0 }

def c6qA : Queue := { c6q with loss_count_ := 5 }

/-- Witness state for claim C6: a freshly constructed queue of capacity 1. -/
def c6qW : Queue := fromOk (construct 1) dummyQ

/- Concrete states for claim C7: `N = 2`, publish 10, 20, 30 with no reads
in between. -/

def c7q0 : Queue := fromOk (construct 2) dummyQ
def c7q1 : Queue := publish (writeData (fromOk (reserve c7q0 1) (0, dummyQ)).2 0 [10]) 0 1
def c7q2 : Queue := publish (writeData (fromOk (reserve c7q1 1) (0, dummyQ)).2 1 [20]) 1 1
def c7q3 : Queue := publish (writeData (fromOk (reserve c7q2 1) (0, dummyQ)).2 2 [30]) 2 1
def c7q4 : Queue := { c7q3 with loss_count_ := 2 }

/-- The queue state after constructing with capacity `N` and running the
producer operations `ops` (claim C8). -/
def stateAfter (N : Nat) (ops : List Op) : Queue :=
  applyOps (fromOk (construct N) dummyQ) ops

/-- Witness state for claim C9. -/
def c9qW : Queue := fromOk (construct 2) dummyQ

/-- Witness state for claim C10: one entry published at index 0. -/
def c10qW : Queue :=
  publish (fromOk (reserve (fromOk (construct 2) dummyQ) 1) (0, dummyQ)).2 0 1

/- ------------------------------------------------------------------ -/
/- Helper lemmas                                                       -/
/- ------------------------------------------------------------------ -/

theorem getD_set_self {α : Type} (l : List α) (i : Nat) (a d : α)
    (h : i < l.length) : (l.set i a).getD i d = a := by
  induction l generalizing i with
  | nil => simp at h
  | cons x xs ih =>
    cases i with
    | zero => rfl
    | succ j => simpa using ih j (by simpa using h)

theorem getD_set_ne {α : Type} (l : List α) (i j : Nat) (a d : α)
    (h : i ≠ j) : (l.set i a).getD j d = l.getD j d := by
  induction l generalizing i j with
  | nil => rfl
  | cons x xs ih =>
    cases i with
    | zero =>
      cases j with
      | zero => exact absurd rfl h
      | succ j' => rfl
    | succ i' =>
      cases j with
      | zero => rfl
      | succ j' => simpa using ih i' j' (fun hh => h (by rw [hh]))

theorem publish_control (q : Queue) (index n : Nat) :
    (publish q index n).control_ =
      q.control_.set (index % q.size_) { data_index := index, size := n } := by
  simp only [publish, setControl]
  split
  · split <;> rfl
  · rfl

theorem publish_size (q : Queue) (index n : Nat) :
    (publish q index n).size_ = q.size_ := by
  simp only [publish, setControl]
  split
  · split <;> rfl
  · rfl

theorem publish_data (q : Queue) (index n : Nat) :
    (publish q index n).data_ = q.data_ := by
  simp only [publish, setControl]
  split
  · split <;> rfl
  · rfl

theorem publish_reserved (q : Queue) (index n : Nat) :
    (publish q index n).reserved_ = q.reserved_ := by
  simp only [publish, setControl]
  split
  · split <;> rfl
  · rfl

theorem publish_loss (q : Queue) (index n : Nat) :
    (publish q index n).loss_count_ = q.loss_count_ := by
  simp only [publish, setControl]
  split
  · split <;> rfl
  · rfl

theorem publish_valid (q : Queue) (index n : Nat) :
    (publish q index n).last_published_valid_ = q.last_published_valid_ := by
  simp only [publish, setControl]
  split
  · split <;> rfl
  · rfl

theorem publish_last_of_invalid (q : Queue) (index n : Nat)
    (hv : q.last_published_valid_ = false) :
    (publish q index n).last_published_ = q.last_published_ := by
  simp only [publish, setControl]
  split
  · next h => simp [hv] at h
  · rfl

/- ------------------------------------------------------------------ -/
/- Claim theorems                                                      -/
/- ------------------------------------------------------------------ -/

/-- C1.  `read_last` does not behave as specified for every watermark
value: the source indexes `control_[last_index]` without applying the
mask, so on a capacity-2 queue whose watermark has reached 2 (three
single-slot publishes) the control access is out of bounds (modelled as
`none`), instead of returning the slot at `last & mask`.  On a watermark
below the capacity (here 0) and on the sentinel the function behaves as
claimed. -/
theorem c1_read_last_oob :
    c1q3.last_published_valid_ = true ∧
    c1q3.last_published_ = 2 ∧
    c1q3.size_ = 2 ∧
    c1q3.control_.length = 2 ∧
    read_last c1q3 = none ∧
    read_last c1q1 = some (some (0, 1)) ∧
    read_last c1q0 = some none := by decide

/-- C2 (counterexample).  On the capacity-8 queue whose reservation index
is 6, `reserve 3` wraps and writes the advanced index 8 into the pre-wrap
slot `control[6]`, not the pre-advance index 6 that the claim states. -/
theorem c2_marker_counterexample :
    get_index c2q2.reserved_ = 6 ∧
    fromOk (reserve c2q2 3) (0, dummyQ) = (8, c2q3) ∧
    (getControl c2q3 6).size = 3 ∧
    (getControl c2q3 6).data_index = 8 ∧
    ¬ (getControl c2q3 6).data_index = 6 := by decide

/-- C3.  The `N = 8` char-queue wrap scenario: reservations return 0, 3
and then 8 (not 6); consuming the first two items moves the cursor to 3
and then 6; before the third publication a read at cursor 6 returns empty
and leaves the cursor at 8; after `publish(8, 3)` a read at cursor 8
returns the three cells holding "789" (ASCII 55, 56, 57) and leaves the
cursor at 11. -/
theorem c3_wrap_scenario :
    c3r1.1 = 0 ∧ c3r2.1 = 3 ∧ c3r3.1 = 8 ∧
    (readPlain 8 c3q2 0).map (fun t => (t.1, t.2.1)) = some (some (0, 3), 3) ∧
    (readPlain 8 c3q2 3).map (fun t => (t.1, t.2.1)) = some (some (3, 3), 6) ∧
    (readPlain 8 c3q3 6).map (fun t => (t.1, t.2.1)) = some (none, 8) ∧
    (readPlain 8 c3q4 8).map (fun t => (t.1, t.2.1)) = some (some (0, 3), 11) ∧
    c3q4.data_.take 3 = [55, 56, 57] := by decide

/-- C4 (counterexample).  Reserving more slots than the capacity throws
`std::runtime_error`, not the invalid-argument error the claim states:
on a capacity-1 queue, `reserve 2` yields the runtime-error kind. -/
theorem c4_overlarge_counterexample :
    reserve c4q1 2 = .error .runtimeError ∧
    ¬ reserve c4q1 2 = .error .invalidArgument := by decide

/-- C5 (counterexample).  In the plain-cursor read the reset-detection
branch does not restart the loop: on the state `c5q` (slot 1 published at
index 5 while the reservation index is 2) a read at cursor 1 falls through
the same iteration and returns the data at physical cell 0 with final
cursor 6 — whereas restarting from cursor 0, as the claim requires, would
return empty with cursor 0. -/
theorem c5_counterexample :
    (getControl c5q (1 % c5q.size_)).data_index = 5 ∧
    get_index c5q.reserved_ = 2 ∧
    ¬ readPlainStep c5q 1 = .again 0 c5q ∧
    readPlain 2 c5q 1 = some (some (0, 1), 6, c5qA) ∧
    readPlain 2 c5q 0 = some (none, 0, c5q) ∧
    ¬ readPlain 2 c5q 1 = readPlain 2 c5q 0 := by decide

/-- C6 (counterexample).  A plain-cursor read and an atomic-cursor read
from the same state and cursor can disagree: on `c6q` at cursor 1 the
plain read returns the cell at position 0 with cursor 6 (and counts 5
losses) while the atomic read restarts at cursor 0 and returns empty. -/
theorem c6_counterexample :
    readPlain 2 c6q 1 = some (some (0, 1), 6, c6qA) ∧
    readAtomic 2 c6q 1 = some (none, 0, c6q) ∧
    ¬ readPlain 2 c6q 1 = readAtomic 2 c6q 1 := by decide

/-- C9.  `publish(index, n)` modifies only the control slot at offset
`index & mask` and (when the watermark is valid) the last-published
watermark: capacity, the data array, the reservation word, the loss
counter, the validity flag and every other control slot are unchanged,
and when the watermark is not valid it is unchanged as well. -/
theorem c9_publish_frame (q : Queue) (index n : Nat) (hn : 1 ≤ n) :
    (publish q index n).size_ = q.size_ ∧
    (publish q index n).data_ = q.data_ ∧
    (publish q index n).reserved_ = q.reserved_ ∧
    (publish q index n).loss_count_ = q.loss_count_ ∧
    (publish q index n).last_published_valid_ = q.last_published_valid_ ∧
    (q.last_published_valid_ = false →
      (publish q index n).last_published_ = q.last_published_) ∧
    (∀ j, j ≠ index % q.size_ → getControl (publish q index n) j = getControl q j) := by
  refine ⟨publish_size q index n, publish_data q index n, publish_reserved q index n,
    publish_loss q index n, publish_valid q index n, publish_last_of_invalid q index n, ?_⟩
  intro j hj
  unfold getControl
  rw [publish_control]
  exact getD_set_ne _ _ _ _ _ (fun h => hj h.symm)

/-- Witness for C9 at a concrete queue, index and length. -/
theorem c9_publish_frame_witness :
    (1 ≤ 1) ∧
    (publish c9qW 0 1).data_ = c9qW.data_ ∧
    (publish c9qW 0 1).reserved_ = c9qW.reserved_ ∧
    getControl (publish c9qW 0 1) 1 = getControl c9qW 1 := by
  have h := c9_publish_frame c9qW 0 1 (by decide)
  exact ⟨by decide, h.2.1, h.2.2.1, h.2.2.2.2.2.2 1 (by decide)⟩

/-- C2 (amended).  A multi-slot `reserve(n)` with `1 < n ≤ N` whose
pre-advance index satisfies `(index mod N) + n > N` returns the index
advanced to the start of the next physical lap,
`index + (N - (index mod N))`, and writes into the pre-wrap slot
`control[index & mask]` the length `n` together with the *advanced* index
(not the pre-advance index) as `published_index` — the offset mismatch
`(published_index & mask) ≠ slot offset` is what readers detect. -/
theorem c2_wrap_marker (q : Queue) (n : Nat)
    (hctrl : q.control_.length = q.size_)
    (h1 : 1 < n) (h2 : n ≤ q.size_)
    (hw : q.size_ < get_index q.reserved_ % q.size_ + n) :
    isOk (reserve q n) = true ∧
    (fromOk (reserve q n) (0, dummyQ)).1 =
      get_index q.reserved_ + (q.size_ - get_index q.reserved_ % q.size_) ∧
    getControl (fromOk (reserve q n) (0, dummyQ)).2 (get_index q.reserved_ % q.size_) =
      { data_index := get_index q.reserved_ + (q.size_ - get_index q.reserved_ % q.size_),
        size := n } := by
  have hn0 : ¬ n = 0 := by omega
  have hns : ¬ q.size_ < n := by omega
  have hn1 : ¬ n = 1 := by omega
  have hpos : 0 < q.size_ := by omega
  have hidx : get_index q.reserved_ % q.size_ < q.size_ := Nat.mod_lt _ hpos
  simp only [reserve, if_neg hn0, if_neg hns, if_neg hn1, if_pos hw, isOk, fromOk,
    setControl, getControl]
  refine ⟨trivial, trivial, ?_⟩
  exact getD_set_self _ _ _ _ (by rw [hctrl]; exact hidx)

/-- Witness for C2 at the concrete capacity-8 queue with reservation
index 6 and `n = 3`. -/
theorem c2_wrap_marker_witness :
    isOk (reserve c2q2 3) = true ∧
    (fromOk (reserve c2q2 3) (0, dummyQ)).1 =
      get_index c2q2.reserved_ + (c2q2.size_ - get_index c2q2.reserved_ % c2q2.size_) ∧
    getControl (fromOk (reserve c2q2 3) (0, dummyQ)).2 (get_index c2q2.reserved_ % c2q2.size_) =
      { data_index := get_index c2q2.reserved_ + (c2q2.size_ - get_index c2q2.reserved_ % c2q2.size_),
        size := 3 } :=
  c2_wrap_marker c2q2 3 (by decide) (by decide) (by decide) (by decide)

/-- C4 (amended).  Constructing with a non-power-of-two capacity and
reserving zero slots throw the invalid-argument error, but reserving more
slots than the capacity throws the *runtime-error* kind (not
invalid-argument); for `1 ≤ n ≤ N`, `reserve(n)` does not throw. -/
theorem c4_error_kinds (size n m : Nat) (q : Queue)
    (hpow : is_power_of_two size = false)
    (hn1 : 1 ≤ n) (hn2 : n ≤ q.size_) (hm : q.size_ < m) :
    construct size = .error .invalidArgument ∧
    reserve q 0 = .error .invalidArgument ∧
    reserve q m = .error .runtimeError ∧
    isOk (reserve q n) = true := by
  refine ⟨?_, ?_, ?_, ?_⟩
  · simp [construct, hpow]
  · simp [reserve]
  · have hm0 : ¬ m = 0 := by omega
    simp [reserve, hm0, hm]
  · have hn0 : ¬ n = 0 := by omega
    have hns : ¬ q.size_ < n := by omega
    rcases eq_or_ne n 1 with h | h
    · subst h
      simp [reserve, hn0, hns, isOk]
    · simp [reserve, hn0, hns, h, isOk]

/-- Witness for C4: capacity 3 is rejected as invalid-argument, and on a
capacity-4 queue `reserve 0` is invalid-argument, `reserve 5` is a
runtime error, and `reserve 2` succeeds. -/
theorem c4_error_kinds_witness :
    construct 3 = .error .invalidArgument ∧
    reserve c4q 0 = .error .invalidArgument ∧
    reserve c4q 5 = .error .runtimeError ∧
    isOk (reserve c4q 2) = true :=
  c4_error_kinds 3 2 5 c4q (by decide) (by decide) (by decide) (by decide)

/-- C5 (amended).  When the loaded slot's `published_index` is not the
sentinel and the reservation word's index is smaller than it, the
atomic-cursor read stores 0 into the cursor and restarts the loop, but the
plain-cursor read only assigns `cursor = 0` and continues the *same*
iteration with the already-loaded slot value: if the loaded index's offset
matches the stale slot offset the iteration returns the cell at physical
position 0 with cursor `published + size` (counting `published` losses),
otherwise it jumps the cursor to `published` and continues. -/
theorem c5_reset_branch (q : Queue) (c : Nat)
    (hpub : (getControl q (c % q.size_)).data_index ≠ kInvalidIndex)
    (hlt : get_index q.reserved_ < (getControl q (c % q.size_)).data_index) :
    readAtomicStep q c = .again 0 q ∧
    readPlainStep q c =
      (if (getControl q (c % q.size_)).data_index % q.size_ = c % q.size_ then
        .done (some (0 % q.size_, (getControl q (c % q.size_)).size))
          (((getControl q (c % q.size_)).data_index +
              (getControl q (c % q.size_)).size) % U64)
          { q with loss_count_ :=
              (q.loss_count_ + (getControl q (c % q.size_)).data_index) % U64 }
      else .again (getControl q (c % q.size_)).data_index q) := by
  have hgt : 0 < (getControl q (c % q.size_)).data_index :=
    Nat.lt_of_le_of_lt (Nat.zero_le _) hlt
  constructor
  · simp only [readAtomicStep, if_pos (And.intro hpub hlt)]
  · simp only [readPlainStep, if_pos (And.intro hpub hlt)]
    have hne : ¬ ((getControl q (c % q.size_)).data_index = kInvalidIndex ∨
        (getControl q (c % q.size_)).data_index < 0) := by
      rintro (h | h)
      · exact hpub h
      · exact Nat.not_lt_zero _ h
    by_cases hm : (getControl q (c % q.size_)).data_index % q.size_ = c % q.size_
    · have hloss : (getControl q (c % q.size_)).data_index ≠ kInvalidIndex ∧
          0 < (getControl q (c % q.size_)).data_index ∧
          (getControl q (c % q.size_)).data_index % q.size_ = c % q.size_ :=
        ⟨hpub, hgt, hm⟩
      have hwrap : ¬ (0 < (getControl q (c % q.size_)).data_index ∧
          (getControl q (c % q.size_)).data_index % q.size_ ≠ c % q.size_) :=
        fun h => h.2 hm
      rw [if_pos hm, if_pos hloss, if_neg hne, if_neg hwrap, Nat.sub_zero]
    · have hloss : ¬ ((getControl q (c % q.size_)).data_index ≠ kInvalidIndex ∧
          0 < (getControl q (c % q.size_)).data_index ∧
          (getControl q (c % q.size_)).data_index % q.size_ = c % q.size_) :=
        fun h => hm h.2.2
      have hwrap : 0 < (getControl q (c % q.size_)).data_index ∧
          (getControl q (c % q.size_)).data_index % q.size_ ≠ c % q.size_ :=
        ⟨hgt, hm⟩
      rw [if_neg hm, if_neg hloss, if_neg hne, if_pos hwrap]

/-- Witness for C5 at the concrete reset-race state `c5q` and cursor 1. -/
theorem c5_reset_branch_witness :
    readAtomicStep c5q 1 = .again 0 c5q ∧
    readPlainStep c5q 1 =
      (if (getControl c5q (1 % c5q.size_)).data_index % c5q.size_ = 1 % c5q.size_ then
        .done (some (0 % c5q.size_, (getControl c5q (1 % c5q.size_)).size))
          (((getControl c5q (1 % c5q.size_)).data_index +
              (getControl c5q (1 % c5q.size_)).size) % U64)
          { c5q with loss_count_ :=
              (c5q.loss_count_ + (getControl c5q (1 % c5q.size_)).data_index) % U64 }
      else .again (getControl c5q (1 % c5q.size_)).data_index c5q) :=
  c5_reset_branch c5q 1 (by decide) (by decide)

theorem readAtomicStep_again (q : Queue) (c c' : Nat) (q' : Queue)
    (h : readAtomicStep q c = .again c' q') : q' = q := by
  simp only [readAtomicStep] at h
  split at h
  · cases h; rfl
  · split at h
    · cases h
    · split at h
      · cases h; rfl
      · cases h

/-- When no slot's published index exceeds the reservation word's index,
one iteration of the plain-cursor read behaves exactly like one iteration
of the atomic-cursor read. -/
theorem step_eq_of_no_reset (q : Queue) (c : Nat) (hN : 0 < q.size_)
    (hinv : ∀ i, i < q.size_ → (getControl q i).data_index ≠ kInvalidIndex →
      (getControl q i).data_index ≤ get_index q.reserved_) :
    readPlainStep q c = readAtomicStep q c := by
  have hidx : c % q.size_ < q.size_ := Nat.mod_lt _ hN
  have hreset : ¬ ((getControl q (c % q.size_)).data_index ≠ kInvalidIndex ∧
      get_index q.reserved_ < (getControl q (c % q.size_)).data_index) := by
    rintro ⟨h1, h2⟩
    exact absurd h2 (Nat.not_lt.mpr (hinv _ hidx h1))
  simp only [readPlainStep, readAtomicStep, if_neg hreset]
  by_cases hp : (getControl q (c % q.size_)).data_index = kInvalidIndex
  · have hempty : (getControl q (c % q.size_)).data_index = kInvalidIndex ∨
        (getControl q (c % q.size_)).data_index < c := Or.inl hp
    have hloss : ¬ ((getControl q (c % q.size_)).data_index ≠ kInvalidIndex ∧
        c < (getControl q (c % q.size_)).data_index ∧
        (getControl q (c % q.size_)).data_index % q.size_ = c % q.size_) :=
      fun h => h.1 hp
    rw [if_neg hloss, if_pos hempty, if_pos hempty]
  · by_cases hlt : (getControl q (c % q.size_)).data_index < c
    · have hempty : (getControl q (c % q.size_)).data_index = kInvalidIndex ∨
          (getControl q (c % q.size_)).data_index < c := Or.inr hlt
      have hloss : ¬ ((getControl q (c % q.size_)).data_index ≠ kInvalidIndex ∧
          c < (getControl q (c % q.size_)).data_index ∧
          (getControl q (c % q.size_)).data_index % q.size_ = c % q.size_) :=
        fun h => absurd hlt (Nat.not_lt.mpr (Nat.le_of_lt h.2.1))
      rw [if_neg hloss, if_pos hempty, if_pos hempty]
    · have hempty : ¬ ((getControl q (c % q.size_)).data_index = kInvalidIndex ∨
          (getControl q (c % q.size_)).data_index < c) := by
        rintro (h | h)
        · exact hp h
        · exact hlt h
      by_cases hm : (getControl q (c % q.size_)).data_index % q.size_ = c % q.size_
      · have hwrap : ¬ (c < (getControl q (c % q.size_)).data_index ∧
            (getControl q (c % q.size_)).data_index % q.size_ ≠ c % q.size_) :=
          fun h => h.2 hm
        rw [if_neg hempty, if_neg hempty, if_neg hwrap, if_neg hwrap]
        by_cases hc : c < (getControl q (c % q.size_)).data_index
        · have hloss : (getControl q (c % q.size_)).data_index ≠ kInvalidIndex ∧
              c < (getControl q (c % q.size_)).data_index ∧
              (getControl q (c % q.size_)).data_index % q.size_ = c % q.size_ :=
            ⟨hp, hc, hm⟩
          have hov : (if c < (getControl q (c % q.size_)).data_index ∧
              (getControl q (c % q.size_)).data_index % q.size_ = c % q.size_ then
                (getControl q (c % q.size_)).data_index - c else 0) ≠ 0 := by
            rw [if_pos ⟨hc, hm⟩]
            omega
          rw [if_pos hloss, if_pos hov, if_pos ⟨hc, hm⟩]
        · have hloss : ¬ ((getControl q (c % q.size_)).data_index ≠ kInvalidIndex ∧
              c < (getControl q (c % q.size_)).data_index ∧
              (getControl q (c % q.size_)).data_index % q.size_ = c % q.size_) :=
            fun h => hc h.2.1
          have hov : ¬ ((if c < (getControl q (c % q.size_)).data_index ∧
              (getControl q (c % q.size_)).data_index % q.size_ = c % q.size_ then
                (getControl q (c % q.size_)).data_index - c else 0) ≠ 0) := by
            rw [if_neg (fun h => hc h.1)]
            omega
          rw [if_neg hloss, if_neg hov]
      · have hc : c < (getControl q (c % q.size_)).data_index := by
          have hle : c ≤ (getControl q (c % q.size_)).data_index := Nat.le_of_not_lt hlt
          rcases Nat.lt_or_eq_of_le hle with h | h
          · exact h
          · exact absurd (congrArg (fun x => x % q.size_) h.symm) hm
        have hwrap : c < (getControl q (c % q.size_)).data_index ∧
            (getControl q (c % q.size_)).data_index % q.size_ ≠ c % q.size_ := ⟨hc, hm⟩
        have hloss : ¬ ((getControl q (c % q.size_)).data_index ≠ kInvalidIndex ∧
            c < (getControl q (c % q.size_)).data_index ∧
            (getControl q (c % q.size_)).data_index % q.size_ = c % q.size_) :=
          fun h => hm h.2.2
        rw [if_neg hloss, if_neg hempty, if_neg hempty, if_pos hwrap, if_pos hwrap]

/-- C6 (amended).  For every queue state in which no slot's published
index exceeds the reservation word's index (i.e. the reset-detection
branch is never triggered) and every cursor value, a plain-cursor read
and an atomic-cursor read return the same result pair, the same final
cursor, and the same final queue state (including the loss counter),
for every fuel bound. -/
theorem c6_read_equiv (fuel : Nat) (q : Queue) (c : Nat) (hN : 0 < q.size_)
    (hinv : ∀ i, i < q.size_ → (getControl q i).data_index ≠ kInvalidIndex →
      (getControl q i).data_index ≤ get_index q.reserved_) :
    readPlain fuel q c = readAtomic fuel q c := by
  induction fuel generalizing c with
  | zero => rfl
  | succ f ih =>
    have hstep := step_eq_of_no_reset q c hN hinv
    simp only [readPlain, readAtomic, hstep]
    cases hres : readAtomicStep q c with
    | done r c' q' => rfl
    | again c' q' =>
      have hq : q' = q := readAtomicStep_again q c c' q' hres
      subst hq
      exact ih c'

/-- Witness for C6 at a freshly constructed capacity-1 queue. -/
theorem c6_read_equiv_witness :
    readPlain 1 c6qW 0 = readAtomic 1 c6qW 0 :=
  c6_read_equiv 1 c6qW 0 (by decide) (by decide)

/-- C7.  The overwrite scenario: on a capacity-2 queue with 10, 20, 30
published and no reads in between, a consumer starting at cursor 0 reads
the value 30 with length 1 and its cursor becomes 3; a subsequent read
returns empty leaving cursor and state unchanged; the loss counter reads
2.  In general (final conjunct), one iteration of the plain read on a
slot holding a genuine published index (`≠` sentinel, and not triggering
reset detection) increments the loss counter by `published - cursor`
exactly when `published > cursor` and `published & mask` equals the
cursor's slot offset. -/
theorem c7_loss_accounting :
    readPlain 4 c7q3 0 = some (some (0, 1), 3, c7q4) ∧
    c7q4.data_.getD 0 0 = 30 ∧
    c7q4.loss_count_ = 2 ∧
    readPlain 4 c7q4 3 = some (none, 3, c7q4) ∧
    (∀ (q : Queue) (c : Nat),
      (getControl q (c % q.size_)).data_index ≠ kInvalidIndex →
      (getControl q (c % q.size_)).data_index ≤ get_index q.reserved_ →
      (stepQueue (readPlainStep q c)).loss_count_ =
        (if c < (getControl q (c % q.size_)).data_index ∧
            (getControl q (c % q.size_)).data_index % q.size_ = c % q.size_ then
          (q.loss_count_ + ((getControl q (c % q.size_)).data_index - c)) % U64
         else q.loss_count_)) := by
  refine ⟨by decide, by decide, by decide, by decide, ?_⟩
  intro q c hpub hle
  have hreset : ¬ ((getControl q (c % q.size_)).data_index ≠ kInvalidIndex ∧
      get_index q.reserved_ < (getControl q (c % q.size_)).data_index) := by
    rintro ⟨h1, h2⟩
    exact absurd h2 (Nat.not_lt.mpr hle)
  simp only [readPlainStep, if_neg hreset]
  by_cases hcond : c < (getControl q (c % q.size_)).data_index ∧
      (getControl q (c % q.size_)).data_index % q.size_ = c % q.size_
  · have hloss : (getControl q (c % q.size_)).data_index ≠ kInvalidIndex ∧
        c < (getControl q (c % q.size_)).data_index ∧
        (getControl q (c % q.size_)).data_index % q.size_ = c % q.size_ :=
      ⟨hpub, hcond.1, hcond.2⟩
    rw [if_pos hcond, if_pos hloss]
    split
    · rfl
    · split <;> rfl
  · have hloss : ¬ ((getControl q (c % q.size_)).data_index ≠ kInvalidIndex ∧
        c < (getControl q (c % q.size_)).data_index ∧
        (getControl q (c % q.size_)).data_index % q.size_ = c % q.size_) :=
      fun h => hcond ⟨h.2.1, h.2.2⟩
    rw [if_neg hcond, if_neg hloss]
    split
    · rfl
    · split <;> rfl

/-- Witness for C7's general loss rule at the concrete overwritten state
and cursor 0. -/
theorem c7_loss_accounting_witness :
    (stepQueue (readPlainStep c7q3 0)).loss_count_ =
      (if 0 < (getControl c7q3 (0 % c7q3.size_)).data_index ∧
          (getControl c7q3 (0 % c7q3.size_)).data_index % c7q3.size_ = 0 % c7q3.size_ then
        (c7q3.loss_count_ + ((getControl c7q3 (0 % c7q3.size_)).data_index - 0)) % U64
       else c7q3.loss_count_) :=
  c7_loss_accounting.2.2.2.2 c7q3 0 (by decide) (by decide)

theorem make_reserved_info_lt (i s : Nat) : make_reserved_info i s < U64 := by
  unfold make_reserved_info U16 U64
  have h1 : i % 2 ^ 48 < 2 ^ 48 := Nat.mod_lt _ (by norm_num)
  have h2 : s % 2 ^ 16 < 2 ^ 16 := Nat.mod_lt _ (by norm_num)
  omega

/-- The single-slot `reserve` returns the pre-increment index and leaves
the reservation word's size field equal to 1, for any state whose
reservation word is a 64-bit value. -/
theorem reserve_one_core (q : Queue) (hs : 0 < q.size_) (hr : q.reserved_ < U64) :
    isOk (reserve q 1) = true ∧
    (fromOk (reserve q 1) (0, dummyQ)).1 = get_index q.reserved_ ∧
    get_size (fromOk (reserve q 1) (0, dummyQ)).2.reserved_ = 1 := by
  have h10 : ¬ (1 : Nat) = 0 := by omega
  have hns : ¬ q.size_ < 1 := by omega
  by_cases hps : get_size q.reserved_ = 1
  · have hnotne : ¬ get_size q.reserved_ ≠ 1 := fun hh => hh hps
    simp only [reserve, if_neg h10, if_neg hns, if_pos rfl, if_true, if_neg hnotne,
      isOk, fromOk]
    refine ⟨trivial, trivial, ?_⟩
    unfold get_size U16 U64 at *
    omega
  · have hcas : (q.reserved_ + U16) % U64 =
        make_reserved_info (get_index q.reserved_ + 1) (get_size q.reserved_) := by
      unfold make_reserved_info get_index get_size U16 U64 at *
      omega
    simp only [reserve, if_neg h10, if_neg hns, if_pos rfl, if_true, if_pos hps,
      if_pos hcas, isOk, fromOk]
    refine ⟨trivial, trivial, ?_⟩
    unfold make_reserved_info get_size U16
    omega

theorem applyOp_size (q : Queue) (op : Op) : (applyOp q op).size_ = q.size_ := by
  cases op with
  | pub i n => exact publish_size q i n
  | res n =>
    simp only [applyOp, reserve]
    split
    · rfl
    · split
      · rfl
      · split
        · simp only [Except.map, fromOk]
          split
          · split <;> rfl
          · rfl
        · simp only [Except.map, fromOk]
          split <;> rfl

theorem applyOp_reserved_lt (q : Queue) (op : Op) (h : q.reserved_ < U64) :
    (applyOp q op).reserved_ < U64 := by
  cases op with
  | pub i n =>
    show (publish q i n).reserved_ < U64
    rw [publish_reserved]
    exact h
  | res n =>
    simp only [applyOp, reserve]
    split
    · exact h
    · split
      · exact h
      · split
        · simp only [Except.map, fromOk]
          split
          · split
            · exact make_reserved_info_lt _ _
            · exact Nat.mod_lt _ (by unfold U64; norm_num)
          · exact Nat.mod_lt _ (by unfold U64; norm_num)
        · simp only [Except.map, fromOk]
          split <;> exact make_reserved_info_lt _ _

theorem applyOps_inv (ops : List Op) (q : Queue) (hs : 0 < q.size_)
    (hr : q.reserved_ < U64) :
    0 < (applyOps q ops).size_ ∧ (applyOps q ops).reserved_ < U64 := by
  induction ops generalizing q with
  | nil => exact ⟨hs, hr⟩
  | cons op rest ih =>
    simp only [applyOps, List.foldl] at *
    exact ih (applyOp q op) (by rw [applyOp_size]; exact hs)
      (applyOp_reserved_lt q op hr)

/-- C8.  After any sequence of reserve and publish operations on a
constructed queue (sequential semantics), `reserve 1` does not throw,
returns the pre-increment index of the reservation word, and leaves the
reservation word's size field equal to 1 — even when the previous
reservation was multi-slot. -/
theorem c8_single_slot_reserve (N : Nat) (ops : List Op)
    (hN : is_power_of_two N = true) :
    isOk (reserve (stateAfter N ops) 1) = true ∧
    (fromOk (reserve (stateAfter N ops) 1) (0, dummyQ)).1 =
      get_index (stateAfter N ops).reserved_ ∧
    get_size (fromOk (reserve (stateAfter N ops) 1) (0, dummyQ)).2.reserved_ = 1 := by
  have hpos : 0 < N := by
    by_contra hc
    have hN0 : N = 0 := by omega
    rw [hN0] at hN
    exact absurd hN (by decide)
  have hq1 : (fromOk (construct N) dummyQ).size_ = N := by
    simp [construct, hN, fromOk]
  have hq2 : (fromOk (construct N) dummyQ).reserved_ = 0 := by
    simp [construct, hN, fromOk]
  have hinv := applyOps_inv ops (fromOk (construct N) dummyQ)
    (by rw [hq1]; exact hpos)
    (by rw [hq2]; unfold U64; norm_num)
  unfold stateAfter
  exact reserve_one_core _ hinv.1 hinv.2

/-- Witness for C8: capacity 2, with a multi-slot reservation followed by
a publish; the subsequent `reserve 1` returns the current index with the
size field restored to 1. -/
theorem c8_single_slot_reserve_witness :
    isOk (reserve (stateAfter 2 [Op.res 2, Op.pub 0 2]) 1) = true ∧
    (fromOk (reserve (stateAfter 2 [Op.res 2, Op.pub 0 2]) 1) (0, dummyQ)).1 =
      get_index (stateAfter 2 [Op.res 2, Op.pub 0 2]).reserved_ ∧
    get_size (fromOk (reserve (stateAfter 2 [Op.res 2, Op.pub 0 2]) 1)
      (0, dummyQ)).2.reserved_ = 1 :=
  c8_single_slot_reserve 2 [Op.res 2, Op.pub 0 2] (by decide)

theorem plainStep_empty_cursor (q : Queue) (c : Nat) (hN : 0 < q.size_)
    (hinv : ∀ i, i < q.size_ → (getControl q i).data_index ≠ kInvalidIndex →
      (getControl q i).data_index ≤ get_index q.reserved_) :
    ∀ c' q', readPlainStep q c = .done none c' q' → c' = c := by
  intro c' q' h
  have hreset : ¬ ((getControl q (c % q.size_)).data_index ≠ kInvalidIndex ∧
      get_index q.reserved_ < (getControl q (c % q.size_)).data_index) := by
    rintro ⟨h1, h2⟩
    exact absurd h2 (Nat.not_lt.mpr (hinv _ (Nat.mod_lt _ hN) h1))
  simp only [readPlainStep, if_neg hreset] at h
  split at h
  · cases h; rfl
  · split at h
    · cases h
    · cases h

theorem plainStep_success (q : Queue) (c : Nat) (hN : 0 < q.size_)
    (hres : q.reserved_ < U64)
    (hsz : ∀ i, i < q.size_ → 1 ≤ (getControl q i).size ∧ (getControl q i).size < 2 ^ 32)
    (hinv : ∀ i, i < q.size_ → (getControl q i).data_index ≠ kInvalidIndex →
      (getControl q i).data_index ≤ get_index q.reserved_) :
    ∀ pos len c' q', readPlainStep q c = .done (some (pos, len)) c' q' →
      len = (getControl q (c % q.size_)).size ∧
      c' = (getControl q (c % q.size_)).data_index + len ∧
      c + 1 ≤ c' := by
  intro pos len c' q' h
  have hidx : c % q.size_ < q.size_ := Nat.mod_lt _ hN
  have hreset : ¬ ((getControl q (c % q.size_)).data_index ≠ kInvalidIndex ∧
      get_index q.reserved_ < (getControl q (c % q.size_)).data_index) := by
    rintro ⟨h1, h2⟩
    exact absurd h2 (Nat.not_lt.mpr (hinv _ hidx h1))
  simp only [readPlainStep, if_neg hreset] at h
  split at h
  · cases h
  · split at h
    · cases h
    · rename_i hni hnw
      cases h
      have hpub : (getControl q (c % q.size_)).data_index ≠ kInvalidIndex :=
        fun hh => hni (Or.inl hh)
      have hle := hinv _ hidx hpub
      have hszb := hsz _ hidx
      have hge : c ≤ (getControl q (c % q.size_)).data_index := by
        rcases Nat.lt_or_ge ((getControl q (c % q.size_)).data_index) c with hlt2 | hge2
        · exact absurd (Or.inr hlt2) hni
        · exact hge2
      have hbound : (getControl q (c % q.size_)).data_index +
          (getControl q (c % q.size_)).size < U64 := by
        unfold get_index U16 U64 at *
        omega
      refine ⟨rfl, Nat.mod_eq_of_lt hbound, ?_⟩
      rw [Nat.mod_eq_of_lt hbound]
      omega

theorem plainStep_skip (q : Queue) (c : Nat) (hN : 0 < q.size_)
    (hinv : ∀ i, i < q.size_ → (getControl q i).data_index ≠ kInvalidIndex →
      (getControl q i).data_index ≤ get_index q.reserved_) :
    ∀ c' q', readPlainStep q c = .again c' q' → q' = q ∧ c < c' := by
  intro c' q' h
  have hreset : ¬ ((getControl q (c % q.size_)).data_index ≠ kInvalidIndex ∧
      get_index q.reserved_ < (getControl q (c % q.size_)).data_index) := by
    rintro ⟨h1, h2⟩
    exact absurd h2 (Nat.not_lt.mpr (hinv _ (Nat.mod_lt _ hN) h1))
  simp only [readPlainStep, if_neg hreset] at h
  split at h
  · cases h
  · split at h
    · rename_i hni hw
      cases h
      exact ⟨if_neg (fun hh => hw.2 hh.2.2), hw.1⟩
    · cases h

theorem readPlain_cursor_le (fuel : Nat) (q : Queue) (c : Nat) (hN : 0 < q.size_)
    (hres : q.reserved_ < U64)
    (hsz : ∀ i, i < q.size_ → 1 ≤ (getControl q i).size ∧ (getControl q i).size < 2 ^ 32)
    (hinv : ∀ i, i < q.size_ → (getControl q i).data_index ≠ kInvalidIndex →
      (getControl q i).data_index ≤ get_index q.reserved_) :
    ∀ r c' q', readPlain fuel q c = some (r, c', q') →
      c ≤ c' ∧ (r ≠ none → c + 1 ≤ c') := by
  induction fuel generalizing c with
  | zero =>
    intro r c' q' h
    cases h
  | succ f ih =>
    intro r c' q' h
    simp only [readPlain] at h
    cases hstep : readPlainStep q c with
    | done r0 c0 q0 =>
      rw [hstep] at h
      cases h
      cases r with
      | none =>
        have hc0 : c' = c := plainStep_empty_cursor q c hN hinv c' q' hstep
        exact ⟨Nat.le_of_eq hc0.symm, fun hr => absurd rfl hr⟩
      | some p =>
        have hsucc := plainStep_success q c hN hres hsz hinv p.1 p.2 c' q' (by
          rw [hstep])
        exact ⟨by omega, fun _ => hsucc.2.2⟩
    | again c0 q0 =>
      rw [hstep] at h
      obtain ⟨hq0, hlt⟩ := plainStep_skip q c hN hinv c0 q0 hstep
      subst hq0
      have hrec := ih c0 r c' q' h
      refine ⟨by omega, fun _ => by omega⟩

/-- C10.  In a plain-cursor read on a well-formed queue state in which
the reset-detection branch is never taken, the cursor never moves
backwards: across a whole call the final cursor is at least the initial
one (strictly greater on a successful read), an iteration returning empty
leaves the cursor unchanged, and a successful iteration sets the cursor
to the slot's published index plus the slot's length, which is at least
the initial cursor plus one. -/
theorem c10_cursor_monotone (q : Queue) (c fuel : Nat) (hN : 0 < q.size_)
    (hres : q.reserved_ < U64)
    (hsz : ∀ i, i < q.size_ → 1 ≤ (getControl q i).size ∧ (getControl q i).size < 2 ^ 32)
    (hinv : ∀ i, i < q.size_ → (getControl q i).data_index ≠ kInvalidIndex →
      (getControl q i).data_index ≤ get_index q.reserved_) :
    (∀ r c' q', readPlain fuel q c = some (r, c', q') →
      c ≤ c' ∧ (r ≠ none → c + 1 ≤ c')) ∧
    (∀ c' q', readPlainStep q c = .done none c' q' → c' = c) ∧
    (∀ pos len c' q', readPlainStep q c = .done (some (pos, len)) c' q' →
      len = (getControl q (c % q.size_)).size ∧
      c' = (getControl q (c % q.size_)).data_index + len ∧
      c + 1 ≤ c') :=
  ⟨readPlain_cursor_le fuel q c hN hres hsz hinv,
   plainStep_empty_cursor q c hN hinv,
   plainStep_success q c hN hres hsz hinv⟩

/-- Witness for C10 at a queue with one published entry, cursor 0 and
fuel 1: the read succeeds, the cursor strictly increases to 1, and the
step-level equations hold. -/
theorem c10_cursor_monotone_witness :
    (0 : Nat) ≤ 1 ∧ ((some ((0 : Nat), (1 : Nat)) :
      Option (Nat × Nat)) ≠ none → (0 : Nat) + 1 ≤ 1) := by
  have h := (c10_cursor_monotone c10qW 0 1 (by decide) (by decide) (by decide)
    (by decide)).1 (some (0, 1)) 1 c10qW (by decide)
  exact h

end SlickQueue
